import Mathlib

/-!
Shallow embedding of the cleaning/labeling pipeline of
`src/streamlit_app.py` (function `run_analysis`, lines 12-47 plus the
export at lines 93-101), together with proofs settling the frozen claims
about it.

Modelling decisions, matching pandas semantics as used by the source:

* A cell (`Val`) is a rational number (`num`), a string (`str`), or a
  missing value (`na`, pandas `NaN`/`None`).  `drop_duplicates` and
  `dropna` treat `NaN` cells as equal to each other, which plain
  decidable equality on `Val` reproduces.
* A `Dataset` is a header (list of column names) plus a list of rows,
  each row a list of cells; `pd.read_csv` always produces a rectangular
  frame, captured by the well-formedness predicate `Dataset.wf`.
* `df['Explicit'].dtype == object` holds exactly when the parsed column
  contains at least one string cell (`colIsObject`); the dtype is fixed
  at parse time, so the test inspects the *input* column, not the rows
  surviving the cleaning steps.
* `df.dropna(subset=important_cols)` raises a `KeyError` naming the
  missing subset columns when some of them are absent; this is the
  `SchemaError` of the spec (`PipeError.schemaError`).
* `x >= 80` in the `Viral` lambda raises a `TypeError` when `x` is a
  string (`PipeError.typeError`); `NaN >= 80` is `False` in Python, so
  `na` maps to `0` (such cells are removed earlier anyway).
* `pd.read_csv` failure is the `ParseError`; `run_analysis` models the
  source's try/except at lines 13-18: on a parse failure it reports the
  error and the pipeline never runs.
-/

/-- A single cell of the data frame. -/
inductive Val where
  | num (q : ℚ)
  | str (s : String)
  | na
deriving DecidableEq, Repr

/-- A parsed data frame: column names plus rows of cells. -/
structure Dataset where
  header : List String
  rows : List (List Val)
deriving DecidableEq, Repr

/-- Rectangularity: every row has exactly one cell per column
(`pd.read_csv` guarantees this). -/
def Dataset.wf (d : Dataset) : Bool :=
  d.rows.all (fun r => r.length == d.header.length)

/-- Counts reported by the cleaning steps (lines 25 and 32). -/
structure Report where
  removed_duplicates : Nat
  removed_missing : Nat
deriving DecidableEq, Repr

/-- The failures the script can surface: a CSV that does not parse
(lines 16-18), a missing `dropna` subset column (line 31), and the
`TypeError` of comparing a string with `80` (line 46). -/
inductive PipeError where
  | parseError (msg : String)
  | schemaError (missing : List String)
  | typeError (msg : String)
deriving DecidableEq, Repr

/-- Index of the first column with the given name, if any. -/
def colIdx : List String → String → Option Nat
  | [], _ => none
  | h :: t, c => if h = c then some 0 else (colIdx t c).map (· + 1)

/-- Cell of a row at a column index; out-of-range reads give `na`
(pandas pads short rows with `NaN`). -/
def getCell (r : List Val) (i : Nat) : Val :=
  r.getD i Val.na

/-- The ten `important_cols` of lines 28-29. -/
def importantCols : List String :=
  ["Popularity", "Energy", "Danceability", "Positiveness", "Speechiness",
   "Liveness", "Acousticness", "Instrumentalness", "Tempo", "Loudness (db)"]

/-- `df.drop_duplicates()` (line 24): keep each row's first occurrence. -/
def dedupRows : List (List Val) → List (List Val) → List (List Val)
  | _, [] => []
  | seen, r :: rs =>
      if r ∈ seen then dedupRows seen rs else r :: dedupRows (r :: seen) rs

/-- Rows surviving deduplication, in input order. -/
def dedupStage (d : Dataset) : List (List Val) :=
  dedupRows [] d.rows

/-- A row has a non-missing value in every important column
(`df.dropna(subset=important_cols)`, line 31). -/
def rowComplete (h : List String) (r : List Val) : Bool :=
  importantCols.all (fun c =>
    match colIdx h c with
    | some i => !(getCell r i == Val.na)
    | none => false)

/-- Rows surviving deduplication and the missing-value drop. -/
def completeStage (d : Dataset) : List (List Val) :=
  (dedupStage d).filter (fun r => rowComplete d.header r)

/-- The important columns absent from the header; `dropna` raises a
`KeyError` naming exactly these (line 31). -/
def missingCols (d : Dataset) : List String :=
  importantCols.filter (fun c => !(d.header.contains c))

/-- Whether the parsed column holds a non-numeric (object) dtype:
true exactly when some cell of the column is a string. -/
def colIsObject (d : Dataset) (c : String) : Bool :=
  match colIdx d.header c with
  | some i => d.rows.any (fun r =>
      match getCell r i with
      | Val.str _ => true
      | _ => false)
  | none => false

/-- `df['Explicit'].map({'Yes':1,'No':0,'True':1,'False':0}).fillna(0)`
(line 36) applied to one cell: unmapped values, including missing ones,
become `0`. -/
def explicitMap : Val → Val
  | Val.str "Yes" => Val.num 1
  | Val.str "No" => Val.num 0
  | Val.str "True" => Val.num 1
  | Val.str "False" => Val.num 0
  | _ => Val.num 0

/-- Rows after the `Explicit` normalization of lines 34-41: applied only
when the column exists and its parsed dtype is object. -/
def explicitStage (d : Dataset) : List (List Val) :=
  match colIdx d.header "Explicit" with
  | some i =>
      if colIsObject d "Explicit" then
        (completeStage d).map (fun r => r.set i (explicitMap (getCell r i)))
      else completeStage d
  | none => completeStage d

/-- `lambda x: 1 if x >= 80 else 0` (line 46).  Comparing a string with
`80` raises a `TypeError`; `NaN >= 80` is `False` in Python. -/
def viralVal : Val → Except String Val
  | Val.num q => Except.ok (Val.num (if 80 ≤ q then 1 else 0))
  | Val.na => Except.ok (Val.num 0)
  | Val.str _ => Except.error "unorderable types in comparison with 80"

/-- Header after `df['Viral'] = ...`: assignment to an existing column
keeps its position, otherwise the column is appended. -/
def outHeader (d : Dataset) : List String :=
  if d.header.contains "Viral" then d.header else d.header ++ ["Viral"]

/-- `Series.apply` over a list of rows: evaluate the function on each
row, stopping at the first raised error. -/
def mapExcept (f : List Val → Except String (List Val)) :
    List (List Val) → Except String (List (List Val))
  | [] => Except.ok []
  | r :: rs =>
    match f r with
    | Except.error e => Except.error e
    | Except.ok r' =>
      match mapExcept f rs with
      | Except.error e => Except.error e
      | Except.ok rs' => Except.ok (r' :: rs')

/-- One row after `df['Viral'] = df['Popularity'].apply(...)` (line 46). -/
def setViralRow (d : Dataset) (r : List Val) : Except String (List Val) :=
  match viralVal (match colIdx d.header "Popularity" with
    | some i => getCell r i
    | none => Val.na) with
  | Except.error e => Except.error e
  | Except.ok v =>
    match colIdx d.header "Viral" with
    | some i => Except.ok (r.set i v)
    | none => Except.ok (r ++ [v])

/-- The cleaning/labeling pipeline of lines 22-47: deduplicate, drop
rows missing an important value (failing when important columns are
absent), normalize `Explicit`, derive `Viral`; the report carries the
two removal counts printed at lines 25 and 32.  On any failure nothing
is produced. -/
def pipeline (d : Dataset) : Except PipeError (Dataset × Report) :=
  if missingCols d = [] then
    match mapExcept (setViralRow d) (explicitStage d) with
    | Except.ok rows4 =>
        Except.ok (⟨outHeader d, rows4⟩,
          ⟨d.rows.length - (dedupStage d).length,
           (dedupStage d).length - (completeStage d).length⟩)
    | Except.error e => Except.error (PipeError.typeError e)
  else Except.error (PipeError.schemaError (missingCols d))

/-- `run_analysis` around the pipeline (lines 12-18): a parse failure is
reported as-is and the cleaning never runs; otherwise the parsed frame
goes through the pipeline.  The exported file (lines 93-101) is exactly
the cleaned dataset. -/
def run_analysis (input : Except String Dataset) : Except PipeError (Dataset × Report) :=
  match input with
  | Except.error e => Except.error (PipeError.parseError e)
  | Except.ok d => pipeline d

/-! ### Basic lemmas about column lookup and cell access -/

theorem colIdx_lt_length {h : List String} {c : String} {i : Nat}
    (hc : colIdx h c = some i) : i < h.length := by
  induction h generalizing i with
  | nil => simp [colIdx] at hc
  | cons x t ih =>
    by_cases hx : x = c
    · simp [colIdx, hx] at hc
      simp only [List.length_cons]
      omega
    · simp [colIdx, hx] at hc
      obtain ⟨j, hj, rfl⟩ := hc
      have := ih hj
      simp only [List.length_cons]
      omega

theorem colIdx_getD {h : List String} {c : String} {i : Nat}
    (hc : colIdx h c = some i) : h.getD i "" = c := by
  induction h generalizing i with
  | nil => simp [colIdx] at hc
  | cons x t ih =>
    by_cases hx : x = c
    · simp [colIdx, hx] at hc
      subst hc
      simpa using hx
    · simp [colIdx, hx] at hc
      obtain ⟨j, hj, rfl⟩ := hc
      simpa using ih hj

theorem colIdx_ne {h : List String} {c c' : String} {i j : Nat}
    (hc : colIdx h c = some i) (hc' : colIdx h c' = some j)
    (hne : c ≠ c') : i ≠ j := by
  intro hij
  subst hij
  exact hne ((colIdx_getD hc).symm.trans (colIdx_getD hc'))

theorem colIdx_append {h t : List String} {c : String} {i : Nat}
    (hc : colIdx h c = some i) : colIdx (h ++ t) c = some i := by
  induction h generalizing i with
  | nil => simp [colIdx] at hc
  | cons x s ih =>
    by_cases hx : x = c
    · simp [colIdx, hx] at hc ⊢
      exact hc
    · simp [colIdx, hx] at hc ⊢
      obtain ⟨j, hj, rfl⟩ := hc
      exact ⟨j, ih hj, rfl⟩

theorem colIdx_eq_none_iff {h : List String} {c : String} :
    colIdx h c = none ↔ c ∉ h := by
  induction h with
  | nil => simp [colIdx]
  | cons x t ih =>
    by_cases hx : x = c
    · simp [colIdx, hx]
    · simp [colIdx, hx, ih, Ne.symm hx]

theorem contains_iff_colIdx {h : List String} {c : String} :
    h.contains c = true ↔ ∃ i, colIdx h c = some i := by
  constructor
  · intro hc
    cases hi : colIdx h c with
    | some i => exact ⟨i, rfl⟩
    | none =>
      simp at hc
      exact absurd hc (colIdx_eq_none_iff.mp hi)
  · rintro ⟨i, hi⟩
    have : c ∈ h := by
      by_contra hmem
      rw [colIdx_eq_none_iff.mpr hmem] at hi
      cases hi
    simpa using this

theorem getCell_set_ne {r : List Val} {i j : Nat} {v : Val} (hij : i ≠ j) :
    getCell (r.set i v) j = getCell r j := by
  simp [getCell, List.getD_eq_getElem?_getD, List.getElem?_set_ne hij]

theorem getCell_set_self {r : List Val} {i : Nat} {v : Val} (hi : i < r.length) :
    getCell (r.set i v) i = v := by
  simp [getCell, List.getD_eq_getElem?_getD, List.getElem?_set_self hi]

theorem getCell_append_lt {r s : List Val} {i : Nat} (hi : i < r.length) :
    getCell (r ++ s) i = getCell r i := by
  simp [getCell, List.getD_eq_getElem?_getD, List.getElem?_append_left hi]

theorem getCell_concat_self {r : List Val} {v : Val} :
    getCell (r ++ [v]) r.length = v := by
  simp [getCell, List.getD_eq_getElem?_getD, List.getElem?_concat_length]

theorem set_getCell_self {r : List Val} {i : Nat} (hi : i < r.length) :
    r.set i (getCell r i) = r := by
  induction r generalizing i with
  | nil => simp at hi
  | cons a t ih =>
    cases i with
    | zero => simp [getCell]
    | succ n =>
      simp at hi
      simpa [getCell, List.getD] using ih hi

/-! ### Lemmas about deduplication -/

theorem dedupRows_sublist (seen l : List (List Val)) :
    (dedupRows seen l).Sublist l := by
  induction l generalizing seen with
  | nil => simp [dedupRows]
  | cons r rs ih =>
    by_cases hr : r ∈ seen
    · simp only [dedupRows, if_pos hr]
      exact (ih seen).trans (List.sublist_cons_self r rs)
    · simp only [dedupRows, if_neg hr]
      exact (ih (r :: seen)).cons₂ r

theorem mem_dedupRows {seen l : List (List Val)} {a : List Val} :
    a ∈ dedupRows seen l ↔ a ∈ l ∧ a ∉ seen := by
  induction l generalizing seen with
  | nil => simp [dedupRows]
  | cons r rs ih =>
    by_cases hr : r ∈ seen
    · simp only [dedupRows, if_pos hr, ih]
      constructor
      · rintro ⟨ha, hs⟩
        exact ⟨List.mem_cons_of_mem r ha, hs⟩
      · rintro ⟨ha, hs⟩
        rcases List.mem_cons.mp ha with rfl | ha
        · exact absurd hr hs
        · exact ⟨ha, hs⟩
    · simp only [dedupRows, if_neg hr]
      constructor
      · intro hmem
        rcases List.mem_cons.mp hmem with rfl | hmem
        · exact ⟨List.mem_cons_self a rs, hr⟩
        · obtain ⟨ha, hs⟩ := ih.mp hmem
          exact ⟨List.mem_cons_of_mem r ha,
            fun hx => hs (List.mem_cons_of_mem r hx)⟩
      · rintro ⟨ha, hs⟩
        rcases List.mem_cons.mp ha with rfl | ha
        · exact List.mem_cons_self a _
        · by_cases har : a = r
          · subst har
            exact List.mem_cons_self a _
          · refine List.mem_cons_of_mem r (ih.mpr ⟨ha, ?_⟩)
            intro hx
            rcases List.mem_cons.mp hx with h1 | h1
            · exact har h1
            · exact hs h1

theorem dedupRows_nodup (seen l : List (List Val)) :
    (dedupRows seen l).Nodup := by
  induction l generalizing seen with
  | nil => simp [dedupRows]
  | cons r rs ih =>
    by_cases hr : r ∈ seen
    · simpa only [dedupRows, if_pos hr] using ih seen
    · simp only [dedupRows, if_neg hr]
      refine List.nodup_cons.mpr ⟨fun hmem => ?_, ih (r :: seen)⟩
      exact (mem_dedupRows.mp hmem).2 (List.mem_cons_self r seen)

theorem dedupRows_eq_self {seen l : List (List Val)} (hn : l.Nodup)
    (hs : ∀ a ∈ l, a ∉ seen) : dedupRows seen l = l := by
  induction l generalizing seen with
  | nil => simp [dedupRows]
  | cons r rs ih =>
    have hr : r ∉ seen := hs r (List.mem_cons_self r rs)
    simp only [dedupRows, if_neg hr]
    have hn' := List.nodup_cons.mp hn
    congr 1
    refine ih hn'.2 (fun a ha => ?_)
    intro hx
    rcases List.mem_cons.mp hx with h1 | h1
    · exact hn'.1 (h1 ▸ ha)
    · exact hs a (List.mem_cons_of_mem r ha) h1

/-! ### Lemmas about the `Viral` assignment and the pipeline's shape -/

theorem mapExcept_ok_iff {f : List Val → Except String (List Val)}
    {l l' : List (List Val)} :
    mapExcept f l = Except.ok l' ↔
      List.Forall₂ (fun a b => f a = Except.ok b) l l' := by
  induction l generalizing l' with
  | nil =>
    constructor
    · intro h
      simp only [mapExcept, Except.ok.injEq] at h
      subst h
      exact List.Forall₂.nil
    · intro h
      rw [List.forall₂_nil_left_iff] at h
      simp [mapExcept, h]
  | cons a t ih =>
    constructor
    · intro h
      rw [mapExcept] at h
      cases ha : f a with
      | error e => rw [ha] at h; cases h
      | ok b =>
        rw [ha] at h
        cases ht : mapExcept f t with
        | error e => rw [ht] at h; cases h
        | ok bs =>
          rw [ht] at h
          simp only [Except.ok.injEq] at h
          subst h
          exact List.Forall₂.cons ha (ih.mp ht)
    · intro h
      cases h with
      | cons hab ht =>
        rw [mapExcept, hab, ih.mpr ht]

theorem mapExcept_ok_of_forall {f : List Val → Except String (List Val)}
    {g : List Val → List Val} {l : List (List Val)}
    (h : ∀ a ∈ l, f a = Except.ok (g a)) :
    mapExcept f l = Except.ok (l.map g) := by
  induction l with
  | nil => simp [mapExcept]
  | cons a t ih =>
    have ha := h a (List.mem_cons_self a t)
    have ht := ih (fun b hb => h b (List.mem_cons_of_mem a hb))
    rw [mapExcept, ha, ht]
    rfl

theorem viralVal_ok_elim {p v : Val} (h : viralVal p = Except.ok v) :
    (∃ q : ℚ, p = Val.num q ∧ v = Val.num (if 80 ≤ q then 1 else 0)) ∨
      (p = Val.na ∧ v = Val.num 0) := by
  cases p with
  | num q =>
    simp only [viralVal, Except.ok.injEq] at h
    exact Or.inl ⟨q, rfl, h.symm⟩
  | str s => cases h
  | na =>
    simp only [viralVal, Except.ok.injEq] at h
    exact Or.inr ⟨rfl, h.symm⟩

theorem setViralRow_ok_elim {d : Dataset} {r r' : List Val} {pi : Nat}
    (hpi : colIdx d.header "Popularity" = some pi)
    (h : setViralRow d r = Except.ok r') :
    ∃ v : Val, viralVal (getCell r pi) = Except.ok v ∧
      ((∃ vi, colIdx d.header "Viral" = some vi ∧ r' = r.set vi v) ∨
        (colIdx d.header "Viral" = none ∧ r' = r ++ [v])) := by
  rw [setViralRow, hpi] at h
  cases hv : viralVal (getCell r pi) with
  | error e => rw [hv] at h; cases h
  | ok v =>
    rw [hv] at h
    refine ⟨v, rfl, ?_⟩
    cases hvi : colIdx d.header "Viral" with
    | some vi =>
      rw [hvi] at h
      simp only [Except.ok.injEq] at h
      exact Or.inl ⟨vi, rfl, h.symm⟩
    | none =>
      rw [hvi] at h
      simp only [Except.ok.injEq] at h
      exact Or.inr ⟨rfl, h.symm⟩

theorem setViralRow_eq_ok {d : Dataset} {r : List Val} {pi : Nat} {v : Val}
    (hpi : colIdx d.header "Popularity" = some pi)
    (hv : viralVal (getCell r pi) = Except.ok v) :
    setViralRow d r =
      Except.ok (match colIdx d.header "Viral" with
        | some vi => r.set vi v
        | none => r ++ [v]) := by
  rw [setViralRow, hpi, hv]
  cases hvi : colIdx d.header "Viral" with
  | some vi => rfl
  | none => rfl

theorem pipeline_ok_elim {d : Dataset} {out : Dataset} {rep : Report}
    (h : pipeline d = Except.ok (out, rep)) :
    missingCols d = [] ∧ out.header = outHeader d ∧
      mapExcept (setViralRow d) (explicitStage d) = Except.ok out.rows ∧
      rep = ⟨d.rows.length - (dedupStage d).length,
        (dedupStage d).length - (completeStage d).length⟩ := by
  by_cases hm : missingCols d = []
  · rw [pipeline, if_pos hm] at h
    cases hmap : mapExcept (setViralRow d) (explicitStage d) with
    | error e => rw [hmap] at h; cases h
    | ok rows4 =>
      rw [hmap] at h
      simp only [Except.ok.injEq, Prod.mk.injEq] at h
      obtain ⟨h1, h2⟩ := h
      subst h1
      exact ⟨hm, rfl, rfl, h2.symm⟩
  · rw [pipeline, if_neg hm] at h
    cases h

theorem pipeline_eq_ok {d : Dataset} {rows4 : List (List Val)}
    (hm : missingCols d = [])
    (hmap : mapExcept (setViralRow d) (explicitStage d) = Except.ok rows4) :
    pipeline d = Except.ok (⟨outHeader d, rows4⟩,
      ⟨d.rows.length - (dedupStage d).length,
        (dedupStage d).length - (completeStage d).length⟩) := by
  rw [pipeline, if_pos hm, hmap]

theorem missingCols_nil_iff {d : Dataset} :
    missingCols d = [] ↔ ∀ c ∈ importantCols, d.header.contains c = true := by
  rw [missingCols, List.filter_eq_nil_iff]
  constructor
  · intro h c hc
    have := h c hc
    simpa using this
  · intro h c hc
    simpa using h c hc

theorem important_colIdx {d : Dataset} {c : String}
    (hm : missingCols d = []) (hc : c ∈ importantCols) :
    ∃ i, colIdx d.header c = some i :=
  contains_iff_colIdx.mp (missingCols_nil_iff.mp hm c hc)

theorem rowComplete_elim {h : List String} {r : List Val} {c : String} {i : Nat}
    (hr : rowComplete h r = true) (hc : c ∈ importantCols)
    (hi : colIdx h c = some i) : getCell r i ≠ Val.na := by
  rw [rowComplete, List.all_eq_true] at hr
  have := hr c hc
  rw [hi] at this
  simpa using this

theorem mem_completeStage {d : Dataset} {r : List Val} :
    r ∈ completeStage d ↔
      r ∈ dedupStage d ∧ rowComplete d.header r = true :=
  List.mem_filter

theorem completeStage_sublist (d : Dataset) :
    (completeStage d).Sublist d.rows :=
  (List.filter_sublist (dedupStage d)).trans (dedupRows_sublist [] d.rows)

theorem completeStage_nodup (d : Dataset) : (completeStage d).Nodup :=
  List.Nodup.filter _ (dedupRows_nodup [] d.rows)

theorem completeStage_length_wf {d : Dataset} {r : List Val}
    (hwf : d.wf = true) (hr : r ∈ completeStage d) :
    r.length = d.header.length := by
  rw [Dataset.wf, List.all_eq_true] at hwf
  have := hwf r ((completeStage_sublist d).mem hr)
  simpa using this

theorem explicitStage_of_not_object {d : Dataset}
    (h : colIsObject d "Explicit" = false) :
    explicitStage d = completeStage d := by
  rw [explicitStage]
  cases hi : colIdx d.header "Explicit" with
  | some i => rw [h]; simp
  | none => rfl

theorem explicitStage_of_object {d : Dataset} {i : Nat}
    (hi : colIdx d.header "Explicit" = some i)
    (ho : colIsObject d "Explicit" = true) :
    explicitStage d =
      (completeStage d).map (fun r => r.set i (explicitMap (getCell r i))) := by
  rw [explicitStage, hi, ho]
  simp

theorem explicitMap_zero_or_one (v : Val) :
    explicitMap v = Val.num 0 ∨ explicitMap v = Val.num 1 := by
  rw [explicitMap.eq_def]
  split <;> simp

/-- Position of the `Viral` column after the assignment of line 46:
its old position when the column pre-exists, else the appended slot. -/
def viralIdxN (d : Dataset) : Nat :=
  match colIdx d.header "Viral" with
  | some i => i
  | none => d.header.length

theorem colIdx_append_self {h : List String} {c : String} (hc : c ∉ h) :
    colIdx (h ++ [c]) c = some h.length := by
  induction h with
  | nil => simp [colIdx]
  | cons x t ih =>
    have hx : x ≠ c := fun hxc => hc (hxc ▸ List.mem_cons_self x t)
    have hmem : c ∉ t := fun hm => hc (List.mem_cons_of_mem x hm)
    simp [colIdx, hx, ih hmem]

theorem colIdx_outHeader_viral (d : Dataset) :
    colIdx (outHeader d) "Viral" = some (viralIdxN d) := by
  rw [outHeader, viralIdxN]
  by_cases hc : d.header.contains "Viral"
  · rw [if_pos hc]
    obtain ⟨i, hi⟩ := contains_iff_colIdx.mp hc
    rw [hi]
  · rw [if_neg hc]
    have hmem : "Viral" ∉ d.header := by simpa using hc
    rw [colIdx_eq_none_iff.mpr hmem, colIdx_append_self hmem]

theorem colIdx_outHeader_some {d : Dataset} {c : String} {i : Nat}
    (hc : colIdx d.header c = some i) :
    colIdx (outHeader d) c = some i := by
  rw [outHeader]
  by_cases hv : d.header.contains "Viral"
  · rw [if_pos hv]; exact hc
  · rw [if_neg hv]; exact colIdx_append hc

theorem colIdx_ne_viralIdxN {d : Dataset} {c : String} {i : Nat}
    (hc : colIdx d.header c = some i) (hne : c ≠ "Viral") :
    i ≠ viralIdxN d := by
  rw [viralIdxN]
  cases hv : colIdx d.header "Viral" with
  | some vi => exact colIdx_ne hc hv hne
  | none =>
    show i ≠ d.header.length
    have := colIdx_lt_length hc
    omega

theorem getCell_default {r : List Val} {j : Nat} (hj : r.length ≤ j) :
    getCell r j = Val.na := by
  simp [getCell, List.getD_eq_getElem?_getD, List.getElem?_len_le hj]

theorem getCell_append_ne {r : List Val} {v : Val} {j : Nat}
    (hj : j ≠ r.length) : getCell (r ++ [v]) j = getCell r j := by
  rcases Nat.lt_or_ge j r.length with hlt | hge
  · exact getCell_append_lt hlt
  · have h1 : r.length < j := lt_of_le_of_ne hge (Ne.symm hj)
    have h2 : (r ++ [v]).length ≤ j := by
      simp only [List.length_append, List.length_cons, List.length_nil]
      omega
    rw [getCell_default h2, getCell_default hge]

theorem forall₂_imp_mem {R S : List Val → List Val → Prop}
    {l l' : List (List Val)} (h : List.Forall₂ R l l')
    (himp : ∀ a ∈ l, ∀ b, R a b → S a b) : List.Forall₂ S l l' := by
  induction h with
  | nil => exact List.Forall₂.nil
  | @cons a b la lb h₁ h₂ ih =>
    exact List.Forall₂.cons (himp a (List.mem_cons_self a la) b h₁)
      (ih (fun x hx y hy => himp x (List.mem_cons_of_mem a hx) y hy))

theorem pop_mem_important : "Popularity" ∈ importantCols := by decide

/-- Master per-row correspondence: on a successful run each output row
arises from one survivor of deduplication and the missing-value drop, in
order; the `Viral` cell is recomputed from the survivor's `Popularity`,
the `Explicit` cell is normalized when the parsed column was textual,
and every other cell is unchanged. -/
theorem pipeline_trace {d out : Dataset} {rep : Report} {pi : Nat}
    (hwf : d.wf = true) (h : pipeline d = Except.ok (out, rep))
    (hpi : colIdx d.header "Popularity" = some pi) :
    List.Forall₂ (fun r r' =>
      r.length = d.header.length ∧
      r'.length = (outHeader d).length ∧
      (∃ q : ℚ, getCell r pi = Val.num q ∧
        getCell r' (viralIdxN d) = Val.num (if 80 ≤ q then 1 else 0)) ∧
      (∀ j : Nat, j ≠ viralIdxN d →
        (colIsObject d "Explicit" = true →
          ∀ ei, colIdx d.header "Explicit" = some ei → j ≠ ei) →
        getCell r' j = getCell r j) ∧
      (∀ ei, colIdx d.header "Explicit" = some ei →
        colIsObject d "Explicit" = true →
        getCell r' ei = explicitMap (getCell r ei)))
      (completeStage d) out.rows := by
  obtain ⟨hm, hh, hmap, hrep⟩ := pipeline_ok_elim h
  have hml := mapExcept_ok_iff.mp hmap
  have houtlen : (outHeader d).length =
      (if d.header.contains "Viral" then d.header.length
        else d.header.length + 1) := by
    rw [outHeader]
    by_cases hv : d.header.contains "Viral"
    · rw [if_pos hv, if_pos hv]
    · rw [if_neg hv, if_neg hv]
      simp
  -- the common step: from a survivor with known length to the conclusion
  have main : ∀ r ∈ completeStage d, ∀ r₂ : List Val,
      (getCell r₂ pi = getCell r pi) → (r₂.length = r.length) →
      (∀ v : Val, getCell (r₂.set (viralIdxN d) v) (viralIdxN d) = v →
        True) → ∀ r' : List Val, setViralRow d r₂ = Except.ok r' →
      r'.length = (outHeader d).length ∧
      (∃ q : ℚ, getCell r pi = Val.num q ∧
        getCell r' (viralIdxN d) = Val.num (if 80 ≤ q then 1 else 0)) ∧
      (∀ j : Nat, j ≠ viralIdxN d → getCell r' j = getCell r₂ j) := by
    intro r hr r₂ hcell hlen _ r' hok
    have hrl : r.length = d.header.length := completeStage_length_wf hwf hr
    have hnotna : getCell r pi ≠ Val.na :=
      rowComplete_elim (mem_completeStage.mp hr).2 pop_mem_important hpi
    obtain ⟨v, hv, hshape⟩ := setViralRow_ok_elim hpi hok
    rw [hcell] at hv
    obtain ⟨q, hq, hvval⟩ | ⟨hna, _⟩ := viralVal_ok_elim hv
    · subst hvval
      have hpilt : pi < r₂.length := by
        have := colIdx_lt_length hpi
        omega
      rcases hshape with ⟨vi, hvi, rfl⟩ | ⟨hvi, rfl⟩
      · have hvieq : viralIdxN d = vi := by rw [viralIdxN, hvi]
        have hvilt : vi < r₂.length := by
          have := colIdx_lt_length hvi
          omega
        refine ⟨?_, ⟨q, hq, ?_⟩, ?_⟩
        · rw [List.length_set, houtlen]
          have : d.header.contains "Viral" = true :=
            contains_iff_colIdx.mpr ⟨vi, hvi⟩
          rw [if_pos this]
          omega
        · rw [hvieq]
          exact getCell_set_self hvilt
        · intro j hj
          rw [hvieq] at hj
          exact getCell_set_ne (Ne.symm hj)
      · have hvieq : viralIdxN d = d.header.length := by rw [viralIdxN, hvi]
        have hcont : d.header.contains "Viral" = false := by
          by_contra hcf
          have : d.header.contains "Viral" = true := by
            cases hcv : d.header.contains "Viral"
            · exact absurd hcv hcf
            · rfl
          obtain ⟨i, hi⟩ := contains_iff_colIdx.mp this
          rw [hi] at hvi
          cases hvi
        refine ⟨?_, ⟨q, hq, ?_⟩, ?_⟩
        · rw [houtlen, hcont, if_neg Bool.false_ne_true]
          simp only [List.length_append, List.length_cons, List.length_nil]
          omega
        · rw [hvieq, ← hrl, ← hlen]
          exact getCell_concat_self
        · intro j hj
          rw [hvieq, ← hrl, ← hlen] at hj
          exact getCell_append_ne hj
    · rw [hna] at hnotna
      exact absurd rfl hnotna
  -- now case on whether normalization happened
  by_cases ho : colIsObject d "Explicit" = true
  · obtain ⟨ei, hei⟩ : ∃ ei, colIdx d.header "Explicit" = some ei := by
      rw [colIsObject] at ho
      cases he : colIdx d.header "Explicit" with
      | some i => exact ⟨i, rfl⟩
      | none => rw [he] at ho; cases ho
    rw [explicitStage_of_object hei ho] at hml
    rw [List.forall₂_map_left_iff] at hml
    refine forall₂_imp_mem hml ?_
    intro r hr r' hok
    have hrl : r.length = d.header.length := completeStage_length_wf hwf hr
    have heilt : ei < r.length := by
      have := colIdx_lt_length hei
      omega
    have hpine : pi ≠ ei :=
      colIdx_ne hpi hei (by decide)
    have hcell : getCell (r.set ei (explicitMap (getCell r ei))) pi
        = getCell r pi := getCell_set_ne (Ne.symm hpine)
    have hlen2 : (r.set ei (explicitMap (getCell r ei))).length = r.length :=
      List.length_set r ei _
    obtain ⟨hl, hviral, hframe⟩ :=
      main r hr _ hcell hlen2 (fun _ _ => trivial) r' hok
    have heine : ei ≠ viralIdxN d := colIdx_ne_viralIdxN hei (by decide)
    refine ⟨hrl, hl, hviral, ?_, ?_⟩
    · intro j hj hobj
      have hjei : j ≠ ei := hobj ho ei hei
      rw [hframe j hj]
      exact getCell_set_ne (Ne.symm hjei)
    · intro ei2 hei2 _
      have : ei2 = ei := by
        rw [hei] at hei2
        cases hei2
        rfl
      subst this
      rw [hframe ei2 heine]
      exact getCell_set_self heilt
  · have hof : colIsObject d "Explicit" = false := by
      cases hcv : colIsObject d "Explicit"
      · rfl
      · exact absurd hcv ho
    rw [explicitStage_of_not_object hof] at hml
    refine forall₂_imp_mem hml ?_
    intro r hr r' hok
    have hrl : r.length = d.header.length := completeStage_length_wf hwf hr
    obtain ⟨hl, hviral, hframe⟩ :=
      main r hr r rfl rfl (fun _ _ => trivial) r' hok
    refine ⟨hrl, hl, hviral, ?_, ?_⟩
    · intro j hj _
      exact hframe j hj
    · intro ei2 _ hobj
      rw [hobj] at hof
      cases hof

theorem forall₂_mem_right {R : List Val → List Val → Prop}
    {l l' : List (List Val)} (h : List.Forall₂ R l l') :
    ∀ b ∈ l', ∃ a ∈ l, R a b := by
  induction h with
  | nil => intro b hb; cases hb
  | @cons a b la lb h₁ h₂ ih =>
    intro x hx
    rcases List.mem_cons.mp hx with rfl | hx
    · exact ⟨a, List.mem_cons_self a la, h₁⟩
    · obtain ⟨y, hy, hxy⟩ := ih x hx
      exact ⟨y, List.mem_cons_of_mem a hy, hxy⟩

theorem map_eq_of_forall₂ {f : List Val → List Val}
    {l l' : List (List Val)}
    (h : List.Forall₂ (fun a b => f b = a) l l') : l'.map f = l := by
  induction h with
  | nil => rfl
  | @cons a b la lb h₁ h₂ ih => simp [ih, h₁]

theorem colIsObject_false_elim {d : Dataset} {c : String} {i : Nat}
    {r : List Val} (ho : colIsObject d c = false)
    (hi : colIdx d.header c = some i) (hr : r ∈ d.rows) {s : String} :
    getCell r i ≠ Val.str s := by
  intro hs
  rw [colIsObject, hi] at ho
  rw [List.any_eq_false] at ho
  have := ho r hr
  rw [hs] at this
  simp at this

theorem colIdx_append_elim {h : List String} {x c : String} {i : Nat}
    (hc : colIdx (h ++ [x]) c = some i) (hne : c ≠ x) :
    colIdx h c = some i := by
  induction h generalizing i with
  | nil =>
    simp [colIdx, Ne.symm hne] at hc
  | cons y t ih =>
    rw [List.cons_append] at hc
    by_cases hy : y = c
    · simp only [colIdx, if_pos hy] at hc ⊢
      exact hc
    · simp only [colIdx, if_neg hy] at hc ⊢
      cases ht : colIdx (t ++ [x]) c with
      | none => rw [ht] at hc; cases hc
      | some j =>
        rw [ht] at hc
        rw [ih ht]
        exact hc

theorem viralIdxN_lt (d : Dataset) : viralIdxN d < (outHeader d).length := by
  rw [viralIdxN, outHeader]
  cases hv : colIdx d.header "Viral" with
  | some vi =>
    have hc : d.header.contains "Viral" = true :=
      contains_iff_colIdx.mpr ⟨vi, hv⟩
    rw [if_pos hc]
    exact colIdx_lt_length hv
  | none =>
    have hm : "Viral" ∉ d.header := colIdx_eq_none_iff.mp hv
    have hc : d.header.contains "Viral" = false := by
      cases hcv : d.header.contains "Viral"
      · rfl
      · exact absurd (by simpa using hcv) hm
    rw [if_neg (by rw [hc]; exact Bool.false_ne_true)]
    simp

theorem important_not_viral : ∀ c ∈ importantCols,
    c ≠ "Viral" ∧ c ≠ "Explicit" := by decide

/-! ### Witness datasets -/

/-- A minimal valid input: the ten important columns, one complete row. -/
def W1 : Dataset :=
  ⟨["Popularity", "Energy", "Danceability", "Positiveness", "Speechiness",
    "Liveness", "Acousticness", "Instrumentalness", "Tempo", "Loudness (db)"],
   [[Val.num 85, Val.num 1, Val.num 1, Val.num 1, Val.num 1,
     Val.num 1, Val.num 1, Val.num 1, Val.num 1, Val.num 1]]⟩

/-- The cleaned output the pipeline produces for `W1`. -/
def W1out : Dataset :=
  ⟨W1.header ++ ["Viral"],
   [[Val.num 85, Val.num 1, Val.num 1, Val.num 1, Val.num 1,
     Val.num 1, Val.num 1, Val.num 1, Val.num 1, Val.num 1, Val.num 1]]⟩

/-! ### The claims -/

/-- C1: on every successful run of the pipeline the derived `Viral`
column is present, and on each surviving row it equals `1` when the
row's `Popularity` value is at least `80` and `0` otherwise. -/
theorem C1_viral_label {d out : Dataset} {rep : Report}
    (hwf : d.wf = true) (h : pipeline d = Except.ok (out, rep)) :
    ∃ vi pi : Nat, colIdx out.header "Viral" = some vi ∧
      colIdx out.header "Popularity" = some pi ∧
      ∀ r ∈ out.rows, ∃ q : ℚ, getCell r pi = Val.num q ∧
        getCell r vi = Val.num (if 80 ≤ q then 1 else 0) ∧
        (getCell r vi = Val.num 1 ↔ 80 ≤ q) := by
  obtain ⟨hm, hh, hmap, _⟩ := pipeline_ok_elim h
  obtain ⟨pi, hpi⟩ := important_colIdx hm pop_mem_important
  have htr := pipeline_trace hwf h hpi
  refine ⟨viralIdxN d, pi, ?_, ?_, ?_⟩
  · rw [hh]
    exact colIdx_outHeader_viral d
  · rw [hh]
    exact colIdx_outHeader_some hpi
  · intro r' hr'
    obtain ⟨r, hr, _, _, ⟨q, hq, hviral⟩, hframe, _⟩ :=
      forall₂_mem_right htr r' hr'
    have hpivi : pi ≠ viralIdxN d := colIdx_ne_viralIdxN hpi (by decide)
    have hpir : getCell r' pi = getCell r pi := by
      apply hframe pi hpivi
      intro _ ei hei
      exact colIdx_ne hpi hei (by decide)
    refine ⟨q, by rw [hpir, hq], hviral, ?_, ?_⟩
    · intro h1
      by_contra hq80
      rw [if_neg hq80] at hviral
      rw [hviral] at h1
      simp at h1
    · intro h80
      rw [if_pos h80] at hviral
      exact hviral

/-- Witness for C1 at the concrete dataset `W1`. -/
theorem C1_viral_label_witness :
    ∃ vi pi : Nat, colIdx W1out.header "Viral" = some vi ∧
      colIdx W1out.header "Popularity" = some pi ∧
      ∀ r ∈ W1out.rows, ∃ q : ℚ, getCell r pi = Val.num q ∧
        getCell r vi = Val.num (if 80 ≤ q then 1 else 0) ∧
        (getCell r vi = Val.num 1 ↔ 80 ≤ q) :=
  @C1_viral_label W1 W1out ⟨0, 0⟩ (by rfl) (by rfl)

/-- C4: after a successful run every surviving row has a non-missing
value in each of the ten required feature columns. -/
theorem C4_complete_rows {d out : Dataset} {rep : Report}
    (hwf : d.wf = true) (h : pipeline d = Except.ok (out, rep)) :
    ∀ r ∈ out.rows, ∀ c ∈ importantCols, ∃ i : Nat,
      colIdx out.header c = some i ∧ getCell r i ≠ Val.na := by
  obtain ⟨hm, hh, hmap, _⟩ := pipeline_ok_elim h
  obtain ⟨pi, hpi⟩ := important_colIdx hm pop_mem_important
  have htr := pipeline_trace hwf h hpi
  intro r' hr' c hc
  obtain ⟨ic, hic⟩ := important_colIdx hm hc
  obtain ⟨hcv, hce⟩ := important_not_viral c hc
  refine ⟨ic, by rw [hh]; exact colIdx_outHeader_some hic, ?_⟩
  obtain ⟨r, hr, _, _, _, hframe, _⟩ := forall₂_mem_right htr r' hr'
  have hcell : getCell r' ic = getCell r ic := by
    apply hframe ic (colIdx_ne_viralIdxN hic hcv)
    intro _ ei hei
    exact colIdx_ne hic hei hce
  rw [hcell]
  exact rowComplete_elim (mem_completeStage.mp hr).2 hc hic

/-- Witness for C4 at the concrete dataset `W1`, instantiated at its
single surviving row and the `Popularity` column. -/
theorem C4_complete_rows_witness :
    ∃ i : Nat, colIdx W1out.header "Popularity" = some i ∧
      getCell (W1out.rows.getD 0 []) i ≠ Val.na :=
  @C4_complete_rows W1 W1out ⟨0, 0⟩ (by rfl) (by rfl)
    (W1out.rows.getD 0 []) (by decide) "Popularity" (by decide)

/-- C5: the cleaning steps run deduplication first and the missing-value
drop second, on the survivors of deduplication; the report counts are
the respective differences, and together with the surviving row count
they partition the input rows. -/
theorem C5_report_order {d out : Dataset} {rep : Report}
    (h : pipeline d = Except.ok (out, rep)) :
    rep.removed_duplicates = d.rows.length - (dedupStage d).length ∧
    rep.removed_missing = (dedupStage d).length - (completeStage d).length ∧
    completeStage d = (dedupStage d).filter (fun r => rowComplete d.header r) ∧
    out.rows.length = (completeStage d).length ∧
    rep.removed_duplicates + rep.removed_missing + out.rows.length
      = d.rows.length := by
  obtain ⟨hm, hh, hmap, hrep⟩ := pipeline_ok_elim h
  subst hrep
  have hlen1 : (dedupStage d).length ≤ d.rows.length :=
    (dedupRows_sublist [] d.rows).length_le
  have hlen2 : (completeStage d).length ≤ (dedupStage d).length :=
    (List.filter_sublist _).length_le
  have hlen3 : (explicitStage d).length = out.rows.length :=
    (mapExcept_ok_iff.mp hmap).length_eq
  have hlen4 : (explicitStage d).length = (completeStage d).length := by
    rw [explicitStage]
    cases he : colIdx d.header "Explicit" with
    | some i =>
      by_cases ho : colIsObject d "Explicit" = true
      · rw [ho]
        simp
      · have : colIsObject d "Explicit" = false := by
          cases hcv : colIsObject d "Explicit"
          · rfl
          · exact absurd hcv ho
        rw [this]
        simp
    | none => rfl
  have hlen5 : out.rows.length = (completeStage d).length := by
    rw [← hlen3, hlen4]
  refine ⟨rfl, rfl, rfl, hlen5, ?_⟩
  simp only [hlen5]
  omega

/-- Witness for C5 at the concrete dataset `W1`. -/
theorem C5_report_order_witness :
    (⟨0, 0⟩ : Report).removed_duplicates
        = W1.rows.length - (dedupStage W1).length ∧
    (⟨0, 0⟩ : Report).removed_missing
        = (dedupStage W1).length - (completeStage W1).length ∧
    completeStage W1
        = (dedupStage W1).filter (fun r => rowComplete W1.header r) ∧
    W1out.rows.length = (completeStage W1).length ∧
    (⟨0, 0⟩ : Report).removed_duplicates + (⟨0, 0⟩ : Report).removed_missing
        + W1out.rows.length = W1.rows.length :=
  @C5_report_order W1 W1out ⟨0, 0⟩ (by rfl)

/-- C8: when the required `Popularity` column is absent the pipeline
fails with the schema error naming it, and produces no output dataset
(the error value carries no rows, so partial cleaning is discarded). -/
theorem C8_schema_error {d : Dataset}
    (hp : d.header.contains "Popularity" = false) :
    ∃ missing : List String,
      pipeline d = Except.error (PipeError.schemaError missing) ∧
      "Popularity" ∈ missing := by
  have hmem : "Popularity" ∈ missingCols d := by
    rw [missingCols, List.mem_filter]
    refine ⟨pop_mem_important, ?_⟩
    rw [hp]
    rfl
  have hne : missingCols d ≠ [] := by
    intro h0
    rw [h0] at hmem
    cases hmem
  refine ⟨missingCols d, ?_, hmem⟩
  rw [pipeline, if_neg hne]

/-- A dataset lacking the `Popularity` column. -/
def W8 : Dataset :=
  ⟨["Energy", "Danceability"], [[Val.num 1, Val.num 2]]⟩

/-- Witness for C8 at the concrete dataset `W8`. -/
theorem C8_schema_error_witness :
    ∃ missing : List String,
      pipeline W8 = Except.error (PipeError.schemaError missing) ∧
      "Popularity" ∈ missing :=
  @C8_schema_error W8 (by rfl)

/-- C9: a parse failure is surfaced as-is as a parse error and the
pipeline never runs; a successful parse hands the frame to the
pipeline.  No retry exists in either case. -/
theorem C9_parse_error_no_run (msg : String) :
    run_analysis (Except.error msg) = Except.error (PipeError.parseError msg) ∧
    ∀ d : Dataset, run_analysis (Except.ok d) = pipeline d :=
  ⟨rfl, fun _ => rfl⟩

/-- Witness for C9 at a concrete unparseable input. -/
theorem C9_parse_error_no_run_witness :
    run_analysis (Except.error "not a csv")
        = Except.error (PipeError.parseError "not a csv") ∧
    ∀ d : Dataset, run_analysis (Except.ok d) = pipeline d :=
  C9_parse_error_no_run "not a csv"

/-- The spec's `Explicit` example: values `Yes`, `No`, `Maybe`, missing
on four otherwise-valid rows. -/
def W6 : Dataset :=
  ⟨["Popularity", "Energy", "Danceability", "Positiveness", "Speechiness",
    "Liveness", "Acousticness", "Instrumentalness", "Tempo", "Loudness (db)",
    "Explicit"],
   [[Val.num 10, Val.num 1, Val.num 1, Val.num 1, Val.num 1,
     Val.num 1, Val.num 1, Val.num 1, Val.num 1, Val.num 1, Val.str "Yes"],
    [Val.num 20, Val.num 1, Val.num 1, Val.num 1, Val.num 1,
     Val.num 1, Val.num 1, Val.num 1, Val.num 1, Val.num 1, Val.str "No"],
    [Val.num 30, Val.num 1, Val.num 1, Val.num 1, Val.num 1,
     Val.num 1, Val.num 1, Val.num 1, Val.num 1, Val.num 1, Val.str "Maybe"],
    [Val.num 95, Val.num 1, Val.num 1, Val.num 1, Val.num 1,
     Val.num 1, Val.num 1, Val.num 1, Val.num 1, Val.num 1, Val.na]]⟩

/-- The cleaned output for `W6`: `Explicit` becomes `[1,0,0,0]` and
`Viral` becomes `[0,0,0,1]`. -/
def W6out : Dataset :=
  ⟨W6.header ++ ["Viral"],
   [[Val.num 10, Val.num 1, Val.num 1, Val.num 1, Val.num 1,
     Val.num 1, Val.num 1, Val.num 1, Val.num 1, Val.num 1, Val.num 1,
     Val.num 0],
    [Val.num 20, Val.num 1, Val.num 1, Val.num 1, Val.num 1,
     Val.num 1, Val.num 1, Val.num 1, Val.num 1, Val.num 1, Val.num 0,
     Val.num 0],
    [Val.num 30, Val.num 1, Val.num 1, Val.num 1, Val.num 1,
     Val.num 1, Val.num 1, Val.num 1, Val.num 1, Val.num 1, Val.num 0,
     Val.num 0],
    [Val.num 95, Val.num 1, Val.num 1, Val.num 1, Val.num 1,
     Val.num 1, Val.num 1, Val.num 1, Val.num 1, Val.num 1, Val.num 0,
     Val.num 1]]⟩

/-- A one-row dataset whose `Explicit` column is already numeric, with
the out-of-range value `5`. -/
def W6b : Dataset :=
  ⟨["Popularity", "Energy", "Danceability", "Positiveness", "Speechiness",
    "Liveness", "Acousticness", "Instrumentalness", "Tempo", "Loudness (db)",
    "Explicit"],
   [[Val.num 90, Val.num 1, Val.num 1, Val.num 1, Val.num 1,
     Val.num 1, Val.num 1, Val.num 1, Val.num 1, Val.num 1, Val.num 5]]⟩

/-- The cleaned output for `W6b`: `Explicit` is left untouched. -/
def W6bout : Dataset :=
  ⟨W6b.header ++ ["Viral"],
   [[Val.num 90, Val.num 1, Val.num 1, Val.num 1, Val.num 1,
     Val.num 1, Val.num 1, Val.num 1, Val.num 1, Val.num 1, Val.num 5,
     Val.num 1]]⟩

/-- C6: when the `Explicit` column exists in a non-numeric (object)
representation, the pipeline maps its cells case-sensitively with
`Yes`, `True` to `1` and `No`, `False` to `0`, every unmapped value
(including missing cells and the lowercase `yes`) to `0`; a numeric
column is left untouched and an absent column skips the step without
error. -/
theorem C6_explicit_rules :
    explicitMap (Val.str "Yes") = Val.num 1 ∧
    explicitMap (Val.str "No") = Val.num 0 ∧
    explicitMap (Val.str "True") = Val.num 1 ∧
    explicitMap (Val.str "False") = Val.num 0 ∧
    explicitMap (Val.str "yes") = Val.num 0 ∧
    explicitMap Val.na = Val.num 0 ∧
    (∀ v : Val, v ≠ Val.str "Yes" → v ≠ Val.str "No" →
      v ≠ Val.str "True" → v ≠ Val.str "False" →
      explicitMap v = Val.num 0) ∧
    (∀ d : Dataset, ∀ i : Nat, colIdx d.header "Explicit" = some i →
      colIsObject d "Explicit" = true →
      explicitStage d = (completeStage d).map
        (fun r => r.set i (explicitMap (getCell r i)))) ∧
    (∀ d : Dataset, colIsObject d "Explicit" = false →
      explicitStage d = completeStage d) ∧
    (∀ d : Dataset, colIdx d.header "Explicit" = none →
      explicitStage d = completeStage d) := by
  refine ⟨rfl, rfl, rfl, rfl, rfl, rfl, ?_, ?_, ?_, ?_⟩
  · intro v h1 h2 h3 h4
    rw [explicitMap.eq_def]
    split <;> simp_all
  · intro d i hi ho
    exact explicitStage_of_object hi ho
  · intro d ho
    exact explicitStage_of_not_object ho
  · intro d hnone
    rw [explicitStage, hnone]

/-- Witness for C6: the textual case at `W6` and the numeric
(untouched) case at `W6b`. -/
theorem C6_explicit_rules_witness :
    explicitStage W6 = (completeStage W6).map
      (fun r => r.set 10 (explicitMap (getCell r 10))) ∧
    explicitStage W6b = completeStage W6b :=
  ⟨C6_explicit_rules.2.2.2.2.2.2.2.1 W6 10 (by rfl) (by rfl),
   C6_explicit_rules.2.2.2.2.2.2.2.2.1 W6b (by rfl)⟩

/-- C7 counterexample: a dataset whose `Explicit` column is already
numeric with value `5` passes the pipeline untouched, so the surviving
row's `Explicit` value is neither `0` nor `1`. -/
theorem C7_counterexample :
    pipeline W6b = Except.ok (W6bout, ⟨0, 0⟩) ∧
    colIdx W6bout.header "Explicit" = some 10 ∧
    getCell (W6bout.rows.getD 0 []) 10 = Val.num 5 ∧
    ¬(getCell (W6bout.rows.getD 0 []) 10 = Val.num 0 ∨
      getCell (W6bout.rows.getD 0 []) 10 = Val.num 1) := by
  refine ⟨by rfl, by rfl, by rfl, ?_⟩
  decide

/-- C7 (amended): the `{0, 1}` invariant for `Explicit` holds whenever
the column was stored non-numerically (the case the code normalizes);
an already-numeric column passes through unchanged and may keep values
outside `{0, 1}`. -/
theorem C7_explicit_binary_amended {d out : Dataset} {rep : Report} {ei : Nat}
    (hwf : d.wf = true) (h : pipeline d = Except.ok (out, rep))
    (hei : colIdx d.header "Explicit" = some ei)
    (ho : colIsObject d "Explicit" = true) :
    colIdx out.header "Explicit" = some ei ∧
    ∀ r ∈ out.rows, getCell r ei = Val.num 0 ∨ getCell r ei = Val.num 1 := by
  obtain ⟨hm, hh, hmap, _⟩ := pipeline_ok_elim h
  obtain ⟨pi, hpi⟩ := important_colIdx hm pop_mem_important
  have htr := pipeline_trace hwf h hpi
  refine ⟨by rw [hh]; exact colIdx_outHeader_some hei, ?_⟩
  intro r' hr'
  obtain ⟨r, hr, _, _, _, _, hexp⟩ := forall₂_mem_right htr r' hr'
  rw [hexp ei hei ho]
  exact explicitMap_zero_or_one _

/-- Witness for the amended C7 at the concrete dataset `W6`. -/
theorem C7_explicit_binary_amended_witness :
    colIdx W6out.header "Explicit" = some 10 ∧
    ∀ r ∈ W6out.rows, getCell r 10 = Val.num 0 ∨ getCell r 10 = Val.num 1 :=
  @C7_explicit_binary_amended W6 W6out ⟨0, 0⟩ 10 (by rfl) (by rfl)
    (by rfl) (by rfl)

/-- A dataset that already carries a `Viral` column whose stale values
distinguish two otherwise-identical rows. -/
def XV : Dataset :=
  ⟨["Popularity", "Energy", "Danceability", "Positiveness", "Speechiness",
    "Liveness", "Acousticness", "Instrumentalness", "Tempo", "Loudness (db)",
    "Viral"],
   [[Val.num 85, Val.num 1, Val.num 1, Val.num 1, Val.num 1,
     Val.num 1, Val.num 1, Val.num 1, Val.num 1, Val.num 1, Val.num 0],
    [Val.num 85, Val.num 1, Val.num 1, Val.num 1, Val.num 1,
     Val.num 1, Val.num 1, Val.num 1, Val.num 1, Val.num 1, Val.num 1]]⟩

/-- The first run's output for `XV`: recomputing `Viral` makes the two
surviving rows exact duplicates. -/
def XVout : Dataset :=
  ⟨XV.header,
   [[Val.num 85, Val.num 1, Val.num 1, Val.num 1, Val.num 1,
     Val.num 1, Val.num 1, Val.num 1, Val.num 1, Val.num 1, Val.num 1],
    [Val.num 85, Val.num 1, Val.num 1, Val.num 1, Val.num 1,
     Val.num 1, Val.num 1, Val.num 1, Val.num 1, Val.num 1, Val.num 1]]⟩

/-- The second run's output for `XVout`: deduplication now removes one
of the two rows. -/
def XVout2 : Dataset :=
  ⟨XV.header,
   [[Val.num 85, Val.num 1, Val.num 1, Val.num 1, Val.num 1,
     Val.num 1, Val.num 1, Val.num 1, Val.num 1, Val.num 1, Val.num 1]]⟩

/-- C3 counterexample: on an input whose pre-existing `Viral` column
distinguishes two otherwise-identical rows, both rows survive
deduplication and the recomputed label then makes them exact
duplicates across all columns. -/
theorem C3_counterexample :
    pipeline XV = Except.ok (XVout, ⟨0, 0⟩) ∧
    XVout.rows.getD 0 [] = XVout.rows.getD 1 [] ∧
    ¬XVout.rows.Nodup := by
  refine ⟨by rfl, by rfl, ?_⟩
  decide

/-- C3 (amended): the surviving rows always descend from
pairwise-distinct rows of the input, deduplication keeps exactly the
distinct row values (first occurrences, in input order); the surviving
rows themselves are pairwise distinct provided the input carries no
pre-existing `Viral` column and its `Explicit` column is absent or
numeric — overwriting a stale `Viral` column or normalizing a textual
`Explicit` column can otherwise merge two surviving rows. -/
theorem C3_no_duplicates_amended {d out : Dataset} {rep : Report}
    (hv : d.header.contains "Viral" = false)
    (ho : colIsObject d "Explicit" = false)
    (h : pipeline d = Except.ok (out, rep)) :
    out.rows.Nodup ∧
    out.rows.map (fun r => r.dropLast) = completeStage d ∧
    (completeStage d).Nodup ∧
    (completeStage d).Sublist d.rows ∧
    (∀ r : List Val, r ∈ dedupStage d ↔ r ∈ d.rows) := by
  obtain ⟨hm, hh, hmap, _⟩ := pipeline_ok_elim h
  have hvnone : colIdx d.header "Viral" = none := by
    rw [colIdx_eq_none_iff]
    intro hmem
    have hc : d.header.contains "Viral" = true := by simpa using hmem
    rw [hc] at hv
    cases hv
  have hml := mapExcept_ok_iff.mp hmap
  rw [explicitStage_of_not_object ho] at hml
  have hml2 : List.Forall₂ (fun r r' => r'.dropLast = r)
      (completeStage d) out.rows := by
    refine forall₂_imp_mem hml ?_
    intro r hr r' hok
    obtain ⟨pi, hpi⟩ := important_colIdx hm pop_mem_important
    obtain ⟨v, hvv, hshape⟩ := setViralRow_ok_elim hpi hok
    rcases hshape with ⟨vi, hvi, _⟩ | ⟨_, rfl⟩
    · rw [hvi] at hvnone
      cases hvnone
    · exact List.dropLast_concat
  have hmapeq : out.rows.map (fun r => r.dropLast) = completeStage d :=
    map_eq_of_forall₂ hml2
  refine ⟨?_, hmapeq, completeStage_nodup d, completeStage_sublist d, ?_⟩
  · have hnm : (out.rows.map (fun r => r.dropLast)).Nodup := by
      rw [hmapeq]
      exact completeStage_nodup d
    exact List.Nodup.of_map _ hnm
  · intro r
    rw [dedupStage, mem_dedupRows]
    simp

/-- Witness for the amended C3 at the concrete dataset `W1`. -/
theorem C3_no_duplicates_amended_witness :
    W1out.rows.Nodup ∧
    W1out.rows.map (fun r => r.dropLast) = completeStage W1 ∧
    (completeStage W1).Nodup ∧
    (completeStage W1).Sublist W1.rows ∧
    (∀ r : List Val, r ∈ dedupStage W1 ↔ r ∈ W1.rows) :=
  @C3_no_duplicates_amended W1 W1out ⟨0, 0⟩ (by rfl) (by rfl) (by rfl)

/-- C2 counterexample: running the pipeline on its own cleaned output
is not always a no-op — after the first run on `XV` the recomputed
`Viral` column has merged two rows, and the second run deduplicates
them, so the two cleaned outputs differ. -/
theorem C2_counterexample :
    pipeline XV = Except.ok (XVout, ⟨0, 0⟩) ∧
    pipeline XVout = Except.ok (XVout2, ⟨1, 0⟩) ∧
    XVout2 ≠ XVout := by
  refine ⟨by rfl, by rfl, ?_⟩
  decide

/-- C2 (amended): the pipeline is idempotent on every cleaned output
that contains no duplicate rows — re-running it on such an output
removes nothing, leaves `Explicit` untouched (it is no longer object
typed), recomputes `Viral` to the identical values, and reports zero
removals.  The unconditional claim fails because recomputing `Viral`
over a stale pre-existing column, or normalizing a textual `Explicit`
column, can merge two distinct surviving rows, which the second run
then deduplicates. -/
theorem C2_idempotent_amended {d out : Dataset} {rep : Report}
    (hwf : d.wf = true) (h : pipeline d = Except.ok (out, rep))
    (hnd : out.rows.Nodup) :
    pipeline out = Except.ok (out, ⟨0, 0⟩) := by
  obtain ⟨hm, hh, hmap, _⟩ := pipeline_ok_elim h
  obtain ⟨pi, hpi⟩ := important_colIdx hm pop_mem_important
  have htr := pipeline_trace hwf h hpi
  have hmout : missingCols out = [] := by
    rw [missingCols_nil_iff]
    intro c hc
    obtain ⟨i, hi⟩ := important_colIdx hm hc
    rw [hh]
    exact contains_iff_colIdx.mpr ⟨i, colIdx_outHeader_some hi⟩
  have hrowfact : ∀ r' ∈ out.rows,
      r'.length = out.header.length ∧
      rowComplete out.header r' = true ∧
      (∃ q : ℚ, getCell r' pi = Val.num q ∧
        getCell r' (viralIdxN d) = Val.num (if 80 ≤ q then 1 else 0)) := by
    intro r' hr'
    obtain ⟨r, hr, hlen, hlen', ⟨q, hq, hviral⟩, hframe, hexp⟩ :=
      forall₂_mem_right htr r' hr'
    have hcmpl := (mem_completeStage.mp hr).2
    refine ⟨by rw [hh]; exact hlen', ?_, ?_⟩
    · rw [rowComplete, List.all_eq_true]
      intro c hc
      obtain ⟨ic, hic⟩ := important_colIdx hm hc
      obtain ⟨hcv, hce⟩ := important_not_viral c hc
      have hic2 : colIdx out.header c = some ic := by
        rw [hh]
        exact colIdx_outHeader_some hic
      rw [hic2]
      show (!(getCell r' ic == Val.na)) = true
      have hcell : getCell r' ic = getCell r ic := by
        apply hframe ic (colIdx_ne_viralIdxN hic hcv)
        intro _ ei hei
        exact colIdx_ne hic hei hce
      rw [hcell]
      simpa using rowComplete_elim hcmpl hc hic
    · refine ⟨q, ?_, hviral⟩
      have hcell : getCell r' pi = getCell r pi := by
        apply hframe pi (colIdx_ne_viralIdxN hpi (by decide))
        intro _ ei hei
        exact colIdx_ne hpi hei (by decide)
      rw [hcell, hq]
  have hoout : colIsObject out "Explicit" = false := by
    cases hoe : colIdx out.header "Explicit" with
    | none => rw [colIsObject, hoe]
    | some i =>
      have hied : colIdx d.header "Explicit" = some i := by
        rw [hh, outHeader] at hoe
        by_cases hvc : d.header.contains "Viral"
        · rw [if_pos hvc] at hoe
          exact hoe
        · rw [if_neg hvc] at hoe
          exact colIdx_append_elim hoe (by decide)
      rw [colIsObject, hoe]
      show (out.rows.any (fun r =>
        match getCell r i with
        | Val.str _ => true
        | _ => false)) = false
      rw [List.any_eq_false]
      intro r' hr'
      obtain ⟨r, hr, _, _, _, hframe, hexp⟩ := forall₂_mem_right htr r' hr'
      have hnostr : ∀ s : String, getCell r' i ≠ Val.str s := by
        intro s hs
        by_cases hod : colIsObject d "Explicit" = true
        · rw [hexp i hied hod] at hs
          rcases explicitMap_zero_or_one (getCell r i) with h0 | h0 <;>
            rw [h0] at hs <;> cases hs
        · have hodf : colIsObject d "Explicit" = false := by
            cases hcv : colIsObject d "Explicit"
            · rfl
            · exact absurd hcv hod
          have hcell : getCell r' i = getCell r i := by
            apply hframe i (colIdx_ne_viralIdxN hied (by decide))
            intro hob
            rw [hob] at hodf
            cases hodf
          rw [hcell] at hs
          exact colIsObject_false_elim hodf hied
            ((completeStage_sublist d).mem hr) hs
      cases hval : getCell r' i with
      | num q => simp
      | na => simp
      | str s => exact absurd hval (hnostr s)
  have hdedup : dedupStage out = out.rows := by
    rw [dedupStage]
    exact dedupRows_eq_self hnd (fun a _ => List.not_mem_nil a)
  have hcompl : completeStage out = out.rows := by
    rw [completeStage, hdedup, List.filter_eq_self]
    intro r' hr'
    exact (hrowfact r' hr').2.1
  have hexps : explicitStage out = out.rows := by
    rw [explicitStage_of_not_object hoout, hcompl]
  have hpiout : colIdx out.header "Popularity" = some pi := by
    rw [hh]
    exact colIdx_outHeader_some hpi
  have hviout : colIdx out.header "Viral" = some (viralIdxN d) := by
    rw [hh]
    exact colIdx_outHeader_viral d
  have hsvr : ∀ r' ∈ out.rows, setViralRow out r' = Except.ok (id r') := by
    intro r' hr'
    obtain ⟨hlen, _, q, hq, hviral⟩ := hrowfact r' hr'
    have hvv : viralVal (getCell r' pi)
        = Except.ok (Val.num (if 80 ≤ q then 1 else 0)) := by
      rw [hq]
      rfl
    rw [setViralRow_eq_ok hpiout hvv, hviout]
    show Except.ok (r'.set (viralIdxN d) (Val.num (if 80 ≤ q then 1 else 0)))
      = Except.ok (id r')
    rw [← hviral, set_getCell_self]
    · rfl
    · rw [hlen, hh]
      exact viralIdxN_lt d
  have hmap2 : mapExcept (setViralRow out) (explicitStage out)
      = Except.ok (out.rows.map id) := by
    rw [hexps]
    exact mapExcept_ok_of_forall hsvr
  have hoh : outHeader out = out.header := by
    rw [outHeader, if_pos (contains_iff_colIdx.mpr ⟨viralIdxN d, hviout⟩)]
  have hfin := pipeline_eq_ok hmout hmap2
  rw [hfin, hoh, hdedup, hcompl, List.map_id]
  simp [Nat.sub_self]

/-- Witness for the amended C2 at the concrete dataset `W1`. -/
theorem C2_idempotent_amended_witness :
    pipeline W1out = Except.ok (W1out, ⟨0, 0⟩) :=
  @C2_idempotent_amended W1 W1out ⟨0, 0⟩ (by rfl) (by rfl) (by decide)

/-- C10: the exported dataset keeps all original columns in their
order, with `Viral` appended when absent (and kept in its old position,
its stale values discarded and recomputed from `Popularity`, when the
input already has one); every column other than `Explicit` and `Viral`
keeps its original value on each surviving row, and the surviving rows
keep their relative input order. -/
theorem C10_frame {d out : Dataset} {rep : Report}
    (hwf : d.wf = true) (h : pipeline d = Except.ok (out, rep)) :
    out.header = (if d.header.contains "Viral" then d.header
      else d.header ++ ["Viral"]) ∧
    (completeStage d).Sublist d.rows ∧
    ∃ pi : Nat, colIdx d.header "Popularity" = some pi ∧
      List.Forall₂ (fun r r' =>
        (∀ c : String, ∀ i : Nat, colIdx d.header c = some i →
          c ≠ "Explicit" → c ≠ "Viral" → getCell r' i = getCell r i) ∧
        (∃ q : ℚ, getCell r pi = Val.num q ∧
          getCell r' (viralIdxN d) = Val.num (if 80 ≤ q then 1 else 0)))
        (completeStage d) out.rows := by
  obtain ⟨hm, hh, hmap, _⟩ := pipeline_ok_elim h
  obtain ⟨pi, hpi⟩ := important_colIdx hm pop_mem_important
  have htr := pipeline_trace hwf h hpi
  refine ⟨by rw [hh, outHeader], completeStage_sublist d, pi, hpi, ?_⟩
  refine forall₂_imp_mem htr ?_
  intro r hr r' hrel
  obtain ⟨hlen, hlen2, hq, hframe, hexp⟩ := hrel
  constructor
  · intro c i hci hce hcv
    apply hframe i (colIdx_ne_viralIdxN hci hcv)
    intro _ ei hei
    exact colIdx_ne hci hei hce
  · exact hq

/-- Witness for C10 at the concrete dataset `XV`, whose input already
contains a `Viral` column. -/
theorem C10_frame_witness :
    XVout.header = (if XV.header.contains "Viral" then XV.header
      else XV.header ++ ["Viral"]) ∧
    (completeStage XV).Sublist XV.rows ∧
    ∃ pi : Nat, colIdx XV.header "Popularity" = some pi ∧
      List.Forall₂ (fun r r' =>
        (∀ c : String, ∀ i : Nat, colIdx XV.header c = some i →
          c ≠ "Explicit" → c ≠ "Viral" → getCell r' i = getCell r i) ∧
        (∃ q : ℚ, getCell r pi = Val.num q ∧
          getCell r' (viralIdxN XV) = Val.num (if 80 ≤ q then 1 else 0)))
        (completeStage XV) XVout.rows :=
  @C10_frame XV XVout ⟨0, 0⟩ (by rfl) (by rfl)
